import Mathlib

set_option maxRecDepth 100000

/-
Verification development for the repository analysis pipeline
(`engine.py`, `app.py`, `ai_content.py`).

The development shallowly embeds the file-selection predicate of
`get_code_files`, the path arithmetic and processing loop of
`run_analysis_job`, the cleanup routines `safe_remove_dir`,
`cleanup_old_jobs` (engine.py) and `cleanup_job_files` (app.py), and
the status bookkeeping of `run_analysis_job_wrapper` (app.py).

Modelling conventions:
- machine strings are Lean `String`s; byte contents are `List Nat`;
- the filesystem relevant to cleanup is a flat list of named entries
  (the engine's working directory, where all job artifacts live);
  `"./x"` in engine.py and `os.path.join(os.path.abspath('.'), "x")`
  in app.py denote the same entry, modelled by the bare name `x`;
- Python exceptions are modelled with `Except`; filesystem failures
  (PermissionError on `shutil.rmtree` / `os.remove`, and the outcome
  of an `ignore_errors=True` retry) are supplied by boolean oracles
  `pf` (the plain removal raises PermissionError) and `rf` (the
  best-effort retry still leaves the entry behind);
- the external AI collaborator calls (`generate_file_explanation`,
  `generate_project_overview`) are opaque function parameters, as the
  spec treats them as out-of-scope collaborators.
-/

/-! ### String helpers (Python string/os.path semantics) -/

/-- Python `s.startswith(t)`. -/
def strStartsWith (s t : String) : Bool := t.data.isPrefixOf s.data

/-- Python `s.endswith(t)`. -/
def strEndsWith (s t : String) : Bool := t.data.isSuffixOf s.data

/-- Python `t in s` (substring containment): `t` is a prefix of some
tail of `s`. -/
def strContains (s t : String) : Bool :=
  s.data.tails.any (fun l => t.data.isPrefixOf l)

/-- Index of the last occurrence of `c` in `l`, or `none`. -/
def lastIndexOf (l : List Char) (c : Char) : Option Nat :=
  (l.foldl (fun (acc : Option Nat × Nat) ch =>
    (if ch = c then some acc.2 else acc.1, acc.2 + 1)) (none, 0)).1

/-- Python `os.path.splitext` (posix): split off the extension at the
last dot of the final path component, unless that component consists
only of leading dots up to that point. -/
def splitext (s : String) : String × String :=
  let p := s.data
  let sepI : Int := match lastIndexOf p '/' with | some n => (n : Int) | none => -1
  let dotI : Int := match lastIndexOf p '.' with | some n => (n : Int) | none => -1
  if dotI > sepI then
    let fnameStart : Nat := (sepI + 1).toNat
    let dotN : Nat := dotI.toNat
    if ((p.drop fnameStart).take (dotN - fnameStart)).all (· = '.') then
      (s, "")
    else
      (⟨p.take dotN⟩, ⟨p.drop dotN⟩)
  else
    (s, "")

/-- Python `os.path.basename` (posix): the part after the last slash. -/
def basename (s : String) : String :=
  match lastIndexOf s.data '/' with
  | some n => ⟨s.data.drop (n + 1)⟩
  | none => s

/-- Python `os.path.relpath(p, root)` as used in `run_analysis_job`:
every processed path comes from `os.walk(root)` and therefore starts
with `root ++ "/"`; stripping that fixed lead is `relpath` there. -/
def relpath (p root : String) : String :=
  if (root ++ "/").data.isPrefixOf p.data then
    ⟨p.data.drop (root ++ "/").length⟩
  else p

/-- Python `os.path.join(a, b)` for a relative second component. -/
def joinPath (a b : String) : String := a ++ "/" ++ b

/-- Python `s.split('\n')[0]`: everything before the first newline. -/
def firstLine (s : String) : String := ⟨s.data.takeWhile (· ≠ '\n')⟩

/-- Python dict assignment `m[k] = v`: replace in place when the key
exists (keeping insertion order), else append a new binding. -/
def assocSet (m : List (String × String)) (k v : String) : List (String × String) :=
  if m.any (fun kv => kv.1 == k) then
    m.map (fun kv => if kv.1 == k then (k, v) else kv)
  else m ++ [(k, v)]

/-- First-match association lookup (a written file's current content). -/
def assocGet (m : List (String × String)) (k : String) : Option String :=
  (m.find? (fun kv => kv.1 == k)).map (fun kv => kv.2)

/-! ### The file classifier of `get_code_files` (engine.py:100-134) -/

/-- Extension denylist `ignored_exts` of `get_code_files`. -/
def ignored_exts : List String :=
  [".exe", ".dll", ".so", ".dylib", ".o", ".obj", ".pyc", ".pyo", ".pyd",
   ".egg", ".whl", ".tar.gz", ".tar.bz2", ".tgz", ".tbz", ".tar.xz", ".txz",
   ".swp", ".swo", ".bak", ".tmp",
   ".lock", ".log", ".svg", ".png", ".jpg", ".jpeg", ".ico", ".gif", ".pdf", ".zip",
   ".doc", ".docx", ".xls", ".xlsx", ".ppt", ".pptx", ".mp3", ".mp4", ".avi", ".mov", ".wav",
   ".env", ".ini", ".cfg", ".yml", ".yaml",
   ".db", ".sqlite", ".sqlite3", ".mdb", ".accdb",
   ".cache", ".temp",
   ".ttf", ".otf", ".woff", ".woff2", ".eot",
   ".safetensors", ".pt", ".pth", ".h5", ".hdf5", ".onnx", ".pb", ".tflite", ".mlmodel"]

/-- Hidden-file allowlist of `get_code_files`. -/
def hiddenAllowlist : List String := [".gitignore", ".env.example"]

/-- Whether `b` is a UTF-8 continuation byte. -/
def utf8Cont (b : Nat) : Bool := 0x80 ≤ b && b ≤ 0xBF

/-- Strict UTF-8 validity of a byte sequence (the success condition of
Python's `bytes.decode('utf-8')`). -/
def utf8Valid : List Nat → Bool
  | [] => true
  | b :: t =>
    if b ≤ 0x7F then utf8Valid t
    else if 0xC2 ≤ b && b ≤ 0xDF then
      match t with
      | c1 :: t1 => utf8Cont c1 && utf8Valid t1
      | [] => false
    else if b == 0xE0 then
      match t with
      | c1 :: c2 :: t2 => (0xA0 ≤ c1 && c1 ≤ 0xBF) && utf8Cont c2 && utf8Valid t2
      | _ => false
    else if (0xE1 ≤ b && b ≤ 0xEC) || b == 0xEE || b == 0xEF then
      match t with
      | c1 :: c2 :: t2 => utf8Cont c1 && utf8Cont c2 && utf8Valid t2
      | _ => false
    else if b == 0xED then
      match t with
      | c1 :: c2 :: t2 => (0x80 ≤ c1 && c1 ≤ 0x9F) && utf8Cont c2 && utf8Valid t2
      | _ => false
    else if b == 0xF0 then
      match t with
      | c1 :: c2 :: c3 :: t3 =>
          (0x90 ≤ c1 && c1 ≤ 0xBF) && utf8Cont c2 && utf8Cont c3 && utf8Valid t3
      | _ => false
    else if 0xF1 ≤ b && b ≤ 0xF3 then
      match t with
      | c1 :: c2 :: c3 :: t3 =>
          utf8Cont c1 && utf8Cont c2 && utf8Cont c3 && utf8Valid t3
      | _ => false
    else if b == 0xF4 then
      match t with
      | c1 :: c2 :: c3 :: t3 =>
          (0x80 ≤ c1 && c1 ≤ 0x8F) && utf8Cont c2 && utf8Cont c3 && utf8Valid t3
      | _ => false
    else false

/-- The binary-sniffing check `is_text_file` (engine.py:85-98), over the
file's byte content: inspect only the first 1024 bytes; a null byte or
a UTF-8 decode failure classifies the file as non-text. -/
def is_text_file (content : List Nat) : Bool :=
  let chunk := content.take 1024
  if chunk.contains 0 then false else utf8Valid chunk

/-- The size cap constant `max_file_size_kb` of `get_code_files`. -/
def max_file_size_kb : Nat := 1000

/-- Metadata and content of one regular-file directory entry as seen by
the per-file filter of `get_code_files` (`size` is `os.path.getsize`;
`content` the bytes `open(..., 'rb')` yields). -/
structure FileInfo where
  name : String
  size : Nat
  isSymlink : Bool
  content : List Nat
deriving DecidableEq

/-- The per-file selection predicate applied by the loop body of
`get_code_files` (engine.py:104-134), in source order: hidden-name
check with allowlist, extension denylist, symlink check, size cap,
binary sniff. -/
def shouldAnalyze (f : FileInfo) : Bool :=
  if strStartsWith f.name "." && !(hiddenAllowlist.any (fun a => a == f.name)) then false
  else if ignored_exts.any (fun e => strEndsWith f.name e) then false
  else if f.isSymlink then false
  else if f.size > max_file_size_kb * 1024 then false
  else if !(is_text_file f.content) then false
  else true

/-- Modelled from the spec: the "test-file naming convention
(prefix/suffix heuristic)" the spec says is excluded; no such check
exists anywhere in `get_code_files`. -/
def matchesTestNaming (name : String) : Bool :=
  strStartsWith name "test_" || strEndsWith (splitext name).1 "_test"

/-! ### Filesystem model for the cleanup routines -/

/-- One entry of the engine's working directory (where all job
artifacts — `temp_repo_*`, `output_repo_*`, `documentation_*.zip` —
live). -/
structure Entry where
  name : String
  isDir : Bool
deriving DecidableEq, Repr

/-- Python `os.path.exists` on this flat directory. -/
def pathExists (fs : List Entry) (p : String) : Bool :=
  fs.any (fun e => e.name == p)

/-- Python `os.path.isdir`. -/
def isDirIn (fs : List Entry) (p : String) : Bool :=
  fs.any (fun e => e.name == p && e.isDir)

/-- Whether a regular file named `p` exists (what `os.remove` needs). -/
def isFileIn (fs : List Entry) (p : String) : Bool :=
  fs.any (fun e => e.name == p && !e.isDir)

/-- Effect of successfully deleting the entry named `p`. -/
def removeEntry (fs : List Entry) (p : String) : List Entry :=
  fs.filter (fun e => !(e.name == p))

/-- Python `shutil.rmtree(p)` with no error suppression: raises
PermissionError exactly when the oracle `pf` says so. -/
def rmtreeE (pf : String → Bool) (fs : List Entry) (p : String) :
    Except String (List Entry) :=
  if pf p then Except.error "PermissionError" else Except.ok (removeEntry fs p)

/-- Python `shutil.rmtree(p, ignore_errors=True)`: never raises; the
oracle `rf` says whether it nevertheless leaves the entry behind. -/
def rmtreeIgnore (rf : String → Bool) (fs : List Entry) (p : String) : List Entry :=
  if rf p then fs else removeEntry fs p

/-- Python `os.remove(p)`: raises when `p` is not an existing regular
file, or when the oracle `pf` reports PermissionError. -/
def osRemoveE (pf : String → Bool) (fs : List Entry) (p : String) :
    Except String (List Entry) :=
  if !(isFileIn fs p) then Except.error "OSError"
  else if pf p then Except.error "PermissionError"
  else Except.ok (removeEntry fs p)

/-- The `safe_remove_dir` routine (engine.py:158-185): return early
when the path does not exist; try a plain `rmtree`; on PermissionError,
only when the path contains `'.git'`, chmod-walk the tree and retry
with `ignore_errors=True`, catching any further exception; for other
paths just log and continue. Every handler returns normally, so the
result is always `Except.ok`. -/
def safe_remove_dir (pf rf : String → Bool) (fs : List Entry) (p : String) :
    Except String (List Entry) :=
  if !(pathExists fs p) then Except.ok fs
  else
    match rmtreeE pf fs p with
    | Except.ok fs' => Except.ok fs'
    | Except.error _ =>
      if strContains p ".git" then
        if rf p then Except.ok fs else Except.ok (removeEntry fs p)
      else Except.ok fs

/-- The filesystem after `safe_remove_dir` (which never raises). -/
def srdFS (pf rf : String → Bool) (fs : List Entry) (p : String) : List Entry :=
  (safe_remove_dir pf rf fs p).toOption.getD fs

/-- Modelled from the spec: the resilient removal strategy of §4.7
applied to EVERY path — plain delete, then chmod-walk and retry on a
permission failure regardless of the path's name, then give up
silently. Stated only to compare with `safe_remove_dir`, whose retry
is conditional on `'.git' in path`. -/
def removeDirSpec (pf rf : String → Bool) (fs : List Entry) (p : String) : List Entry :=
  if !(pathExists fs p) then fs
  else if !(pf p) then removeEntry fs p
  else if rf p then fs
  else removeEntry fs p

/-- Guarded removal: what every cleanup step in this code reduces to —
a deterministic best-effort delete whose failure condition is a
function of the path alone. -/
def guardedRemove (fail : String → Bool) (fs : List Entry) (p : String) : List Entry :=
  if fail p then fs else removeEntry fs p

/-- Sequential application of cleanup steps. -/
def applySteps (steps : List (List Entry → List Entry)) (fs : List Entry) : List Entry :=
  steps.foldl (fun s f => f s) fs

/-- The `cleanup_job_files` routine (app.py:62-105) on a non-Windows
platform: guarded plain `rmtree` of the source tree with an
`ignore_errors=True` retry on OSError, `ignore_errors=True` removal of
the output tree, guarded `os.remove` of the zip with OSError caught.
Every failure is caught, so the result is always `Except.ok`. -/
def cleanup_job_files (pf rf : String → Bool) (fs : List Entry) (job_id : String) :
    Except String (List Entry) :=
  let repo := "temp_repo_" ++ job_id
  let out := "output_repo_" ++ job_id
  let zipn := "documentation_" ++ job_id ++ ".zip"
  let fs1 :=
    if pathExists fs repo then
      match rmtreeE pf fs repo with
      | Except.ok x => x
      | Except.error _ => rmtreeIgnore rf fs repo
    else fs
  let fs2 := if pathExists fs1 out then rmtreeIgnore rf fs1 out else fs1
  let fs3 :=
    if pathExists fs2 zipn then
      match osRemoveE pf fs2 zipn with
      | Except.ok x => x
      | Except.error _ => fs2
    else fs2
  Except.ok fs3

/-- The filesystem after `cleanup_job_files` (which never raises). -/
def cjfFS (pf rf : String → Bool) (fs : List Entry) (job_id : String) : List Entry :=
  (cleanup_job_files pf rf fs job_id).toOption.getD fs

/-- The complete workspace cleanup for one job id: `safe_remove_dir`
on the source and output trees (engine.py:283-284) followed by
`cleanup_job_files` on the three workspace entries (app.py). -/
def removeWorkspace (pf rf : String → Bool) (fs : List Entry) (job_id : String) :
    List Entry :=
  cjfFS pf rf
    (srdFS pf rf (srdFS pf rf fs ("temp_repo_" ++ job_id)) ("output_repo_" ++ job_id))
    job_id

/-- One iteration of the zip-sweeping loop of `cleanup_old_jobs`
(engine.py:196-202): `os.remove` any listing entry whose name matches
`documentation_*.zip`, with every exception caught. -/
def zipLoopStep (pf : String → Bool) (acc : List Entry) (e : Entry) : List Entry :=
  if strStartsWith e.name "documentation_" && strEndsWith e.name ".zip" then
    match osRemoveE pf acc e.name with
    | Except.ok x => x
    | Except.error _ => acc
  else acc

/-- One iteration of the directory-sweeping loop of `cleanup_old_jobs`
(engine.py:204-211): `safe_remove_dir` any listing entry whose name
starts with `output_repo_` or `temp_repo_` and which is currently a
directory. -/
def dirLoopStep (pf rf : String → Bool) (acc : List Entry) (e : Entry) : List Entry :=
  if (strStartsWith e.name "output_repo_" || strStartsWith e.name "temp_repo_")
      && isDirIn acc e.name then
    srdFS pf rf acc e.name
  else acc

/-- The `cleanup_old_jobs` routine (engine.py:187-211): sweep the
engine's directory for `documentation_*.zip` files, then for
`output_repo_*` / `temp_repo_*` directories, purely by name pattern
(it receives no job id). Each loop iterates over a fresh
`os.listdir` snapshot. -/
def cleanup_old_jobs (pf rf : String → Bool) (fs : List Entry) : List Entry :=
  let fs1 := fs.foldl (zipLoopStep pf) fs
  fs1.foldl (dirLoopStep pf rf) fs1

/-! ### The orchestrator `run_analysis_job` (engine.py:213-288) and its
wrapper `run_analysis_job_wrapper` (app.py:108-145) -/

/-- Body of the per-file loop of `run_analysis_job` (engine.py:241-264)
for one readable candidate file, threading the pair
(output-tree contents, summary mapping): compute the relative path,
write the explanation under the output tree at the relative path with
its extension replaced by `.md`, and record the explanation's first
line in the summary mapping under the relative path itself. -/
def processOne (explain : String → String → String) (repo_path output_path : String)
    (st : List (String × String) × List (String × String))
    (file : String × String) :
    List (String × String) × List (String × String) :=
  let explanation := explain file.2 file.1
  let relative_path := relpath file.1 repo_path
  let output_file_path := joinPath output_path relative_path
  let base := (splitext output_file_path).1
  let outputs := assocSet st.1 (base ++ ".md") explanation
  let first_line := firstLine explanation
  (outputs, assocSet st.2 relative_path first_line)

/-- Observable trace of one `run_analysis_job` call: its return value
(`Except.error` = an exception propagating to the wrapper), the output
tree's written files, the summary mapping, the `file_tree_str`
argument passed to `generate_project_overview` (when that call
happens), and the engine directory after the initial
`cleanup_old_jobs`. -/
structure JobTrace where
  result : Except String (Option String)
  outputs : List (String × String)
  summaries : List (String × String)
  overviewTreeArg : Option String
  fsAfterCleanup : List Entry

/-- The orchestrator `run_analysis_job` (engine.py:213-288):
`cleanup_old_jobs` first, then clone (outcome supplied as an
`Except`: the enumerated candidate files with their contents, or the
clone error `clone_repo` re-raises); empty enumeration returns `None`;
otherwise process every file, call `generate_project_overview` with
the literal `"DUMMY_TREE"` as `file_tree_str`, write
`_PROJECT_OVERVIEW.md`, and return the archive path
`documentation_<job_id>.zip`. -/
def run_analysis_job (explain : String → String → String)
    (overview : String → List (String × String) → String)
    (pf rf : String → Bool) (fs : List Entry)
    (job_id : String)
    (fetched : Except String (List (String × String))) : JobTrace :=
  let fs1 := cleanup_old_jobs pf rf fs
  let repo_path := "./temp_repo_" ++ job_id
  let output_path := "./output_repo_" ++ job_id
  let zip_filename := "documentation_" ++ job_id
  match fetched with
  | Except.error m =>
    { result := Except.error m, outputs := [], summaries := [],
      overviewTreeArg := none, fsAfterCleanup := fs1 }
  | Except.ok files =>
    if files.isEmpty then
      { result := Except.ok none, outputs := [], summaries := [],
        overviewTreeArg := none, fsAfterCleanup := fs1 }
    else
      let st := files.foldl (processOne explain repo_path output_path) ([], [])
      let overview_content := overview "DUMMY_TREE" st.2
      let outputs := assocSet st.1 (joinPath output_path "_PROJECT_OVERVIEW.md") overview_content
      { result := Except.ok (some (zip_filename ++ ".zip")),
        outputs := outputs, summaries := st.2,
        overviewTreeArg := some "DUMMY_TREE", fsAfterCleanup := fs1 }

/-- The fixed "no files" message of `run_analysis_job_wrapper`
(app.py:135). -/
def NO_FILES_MSG : String := "No suitable files were found to analyze in the repository."

/-- The terminal fields of the Datastore `Job` entity. -/
structure JobEntity where
  status : String
  download_url : Option String
  error_message : Option String
deriving DecidableEq

/-- Final Job entity written by `run_analysis_job_wrapper`
(app.py:121-145) as a function of `run_analysis_job`'s outcome: a
returned path means COMPLETE with a download URL; a `None` return
means FAILED with the fixed "no files" message; a raised exception
means FAILED with the exception's message. -/
def run_analysis_job_wrapper (outcome : Except String (Option String)) : JobEntity :=
  match outcome with
  | Except.ok (some zp) =>
    { status := "COMPLETE", download_url := some ("/download/" ++ basename zp),
      error_message := none }
  | Except.ok none =>
    { status := "FAILED", download_url := none, error_message := some NO_FILES_MSG }
  | Except.error m =>
    { status := "FAILED", download_url := none, error_message := some m }

/-- The relative-path key the claim under test predicts for a summary
entry: the relative path with its extension replaced by `.md`. -/
def replaceExtWithMd (rel : String) : String := (splitext rel).1 ++ ".md"

/-- The failure condition `safe_remove_dir` reduces to: the entry
survives iff the plain delete raises and either the path lacks
`'.git'` (no retry is attempted) or the best-effort retry fails. -/
def srdFail (pf rf : String → Bool) (p : String) : Bool :=
  pf p && (!(strContains p ".git") || rf p)

/-- The shape of the zip-deletion step: remove the entry when it is an
existing regular file and `os.remove` does not raise. -/
def fileRemoveStep (pf : String → Bool) (fs : List Entry) (z : String) : List Entry :=
  if isFileIn fs z && !(pf z) then removeEntry fs z else fs

/-! ### Basic lemmas about the filesystem model -/

theorem listIsPrefixOf_append (l t : List Char) : l.isPrefixOf (l ++ t) = true := by
  induction l with
  | nil => simp [List.isPrefixOf]
  | cons a as ih => simp [List.isPrefixOf, ih]

theorem strStartsWith_append (a b : String) : strStartsWith (a ++ b) a = true := by
  unfold strStartsWith
  rw [String.data_append]
  exact listIsPrefixOf_append _ _

theorem strEndsWith_append (a b : String) : strEndsWith (a ++ b) b = true := by
  unfold strEndsWith
  rw [String.data_append]
  unfold List.isSuffixOf
  rw [List.reverse_append]
  exact listIsPrefixOf_append _ _

theorem strStartsWith_append_append (a b c : String) :
    strStartsWith (a ++ b ++ c) a = true := by
  unfold strStartsWith
  rw [String.data_append, String.data_append, List.append_assoc]
  exact listIsPrefixOf_append _ _

theorem pathExists_removeEntry (fs : List Entry) (p : String) :
    pathExists (removeEntry fs p) p = false := by
  unfold pathExists removeEntry
  simp [List.any_filter]

theorem isFileIn_removeEntry (fs : List Entry) (p : String) :
    isFileIn (removeEntry fs p) p = false := by
  unfold isFileIn removeEntry
  simp only [List.any_filter]
  simp only [List.any_eq_false]
  intro e _
  by_cases h : e.name = p <;> simp [h]

theorem removeEntry_of_not_exists (fs : List Entry) (p : String)
    (h : pathExists fs p = false) : removeEntry fs p = fs := by
  unfold pathExists at h
  rw [List.any_eq_false] at h
  unfold removeEntry
  rw [List.filter_eq_self]
  intro e he
  have := h e he
  simp_all

theorem removeEntry_removeEntry (fs : List Entry) (p q : String) :
    removeEntry (removeEntry fs q) p = removeEntry (removeEntry fs p) q := by
  unfold removeEntry
  rw [List.filter_filter, List.filter_filter]
  apply List.filter_congr
  intro e _
  exact Bool.and_comm _ _

theorem removeEntry_idem (fs : List Entry) (p : String) :
    removeEntry (removeEntry fs p) p = removeEntry fs p := by
  unfold removeEntry
  rw [List.filter_filter]
  apply List.filter_congr
  intro e _
  exact Bool.and_self _

theorem any_removeEntry_ne (fs : List Entry) (q : String) (f : Entry → Bool)
    (hf : ∀ e, e.name = q → f e = false) :
    (removeEntry fs q).any f = fs.any f := by
  induction fs with
  | nil => rfl
  | cons e t ih =>
    unfold removeEntry at *
    rw [List.filter_cons]
    by_cases heq : e.name = q
    · simp [heq, hf e heq, ih]
    · simp [heq, ih]

theorem isFileIn_removeEntry_ne (fs : List Entry) (p q : String) (h : q ≠ p) :
    isFileIn (removeEntry fs q) p = isFileIn fs p := by
  unfold isFileIn
  apply any_removeEntry_ne
  intro e he
  have : (e.name == p) = false := by
    rw [he]
    simp [fun hqp => h hqp]
  simp [this]

theorem mem_removeEntry (fs : List Entry) (p : String) (e : Entry)
    (h : e ∈ removeEntry fs p) : e ∈ fs := by
  unfold removeEntry at h
  exact (List.mem_filter.mp h).1

theorem guardedRemove_subset (f : String → Bool) (fs : List Entry) (p : String)
    (e : Entry) (h : e ∈ guardedRemove f fs p) : e ∈ fs := by
  unfold guardedRemove at h
  split at h
  · exact h
  · exact mem_removeEntry _ _ _ h

theorem fileRemoveStep_subset (pf : String → Bool) (fs : List Entry) (z : String)
    (e : Entry) (h : e ∈ fileRemoveStep pf fs z) : e ∈ fs := by
  unfold fileRemoveStep at h
  split at h
  · exact mem_removeEntry _ _ _ h
  · exact h

theorem guardedRemove_idem (f : String → Bool) (fs : List Entry) (p : String) :
    guardedRemove f (guardedRemove f fs p) p = guardedRemove f fs p := by
  unfold guardedRemove
  split
  · rfl
  · rw [removeEntry_idem]

theorem guardedRemove_comm (f g : String → Bool) (p q : String) (fs : List Entry) :
    guardedRemove f (guardedRemove g fs q) p = guardedRemove g (guardedRemove f fs p) q := by
  unfold guardedRemove
  by_cases hf : f p <;> by_cases hg : g q <;> simp [hf, hg]
  exact removeEntry_removeEntry fs p q

theorem fileRemoveStep_idem (pf : String → Bool) (fs : List Entry) (z : String) :
    fileRemoveStep pf (fileRemoveStep pf fs z) z = fileRemoveStep pf fs z := by
  unfold fileRemoveStep
  by_cases hc : (isFileIn fs z && !(pf z)) = true
  · rw [if_pos hc]
    rw [isFileIn_removeEntry]
    simp
  · rw [if_neg hc, if_neg hc]

theorem fileRemoveStep_guardedRemove_comm (pf f : String → Bool) (z p : String)
    (fs : List Entry) :
    fileRemoveStep pf (guardedRemove f fs p) z
      = guardedRemove f (fileRemoveStep pf fs z) p := by
  by_cases hpz : p = z
  · subst hpz
    unfold fileRemoveStep guardedRemove
    by_cases hf : f p = true
    · simp [hf]
    · have hf' : f p = false := by simpa using hf
      by_cases hc : (isFileIn fs p && !(pf p)) = true <;>
        simp [hf', hc, isFileIn_removeEntry, removeEntry_idem]
  · unfold fileRemoveStep guardedRemove
    by_cases hf : f p = true
    · simp [hf]
    · have hf' : f p = false := by simpa using hf
      rw [if_neg (by simp [hf'] : ¬(f p = true))]
      rw [isFileIn_removeEntry_ne fs z p hpz]
      by_cases hc : (isFileIn fs z && !(pf z)) = true <;>
        simp [hf', hc, removeEntry_removeEntry]

theorem guardedRemove_noop (f : String → Bool) (fs : List Entry) (p : String)
    (h : pathExists fs p = false) : guardedRemove f fs p = fs := by
  unfold guardedRemove
  rw [removeEntry_of_not_exists fs p h]
  split <;> rfl

theorem isFileIn_imp_pathExists (fs : List Entry) (p : String)
    (h : isFileIn fs p = true) : pathExists fs p = true := by
  unfold isFileIn at h
  unfold pathExists
  rw [List.any_eq_true] at *
  obtain ⟨e, he, hp⟩ := h
  rw [Bool.and_eq_true] at hp
  exact ⟨e, he, hp.1⟩

theorem fileRemoveStep_noop (pf : String → Bool) (fs : List Entry) (z : String)
    (h : pathExists fs z = false) : fileRemoveStep pf fs z = fs := by
  unfold fileRemoveStep
  have : isFileIn fs z = false := by
    by_cases hc : isFileIn fs z = true
    · rw [isFileIn_imp_pathExists fs z hc] at h
      exact absurd h (by simp)
    · simpa using hc
  simp [this]

theorem safe_remove_dir_eq (pf rf : String → Bool) (fs : List Entry) (p : String) :
    safe_remove_dir pf rf fs p = Except.ok (guardedRemove (srdFail pf rf) fs p) := by
  unfold safe_remove_dir rmtreeE guardedRemove srdFail
  by_cases hex : pathExists fs p = true
  · by_cases hpf : pf p = true
    · by_cases hg : strContains p ".git" = true
      · by_cases hrf : rf p = true <;> simp [hex, hpf, hg, hrf]
      · have hg' : strContains p ".git" = false := by simpa using hg
        simp [hex, hpf, hg']
    · have hpf' : pf p = false := by simpa using hpf
      simp [hex, hpf']
  · have hex' : pathExists fs p = false := by simpa using hex
    rw [removeEntry_of_not_exists fs p hex']
    simp [hex']

theorem repoPhase_eq (pf rf : String → Bool) (fs : List Entry) (repo : String) :
    (if pathExists fs repo then
      match rmtreeE pf fs repo with
      | Except.ok x => x
      | Except.error _ => rmtreeIgnore rf fs repo
    else fs) = guardedRemove (fun n => pf n && rf n) fs repo := by
  unfold rmtreeE rmtreeIgnore guardedRemove
  by_cases hex : pathExists fs repo = true
  · by_cases hpf : pf repo = true
    · by_cases hrf : rf repo = true <;> simp [hex, hpf, hrf]
    · have : pf repo = false := by simpa using hpf
      simp [hex, this]
  · have hex' : pathExists fs repo = false := by simpa using hex
    rw [removeEntry_of_not_exists fs _ hex']
    simp [hex']

theorem outPhase_eq (rf : String → Bool) (fs : List Entry) (out : String) :
    (if pathExists fs out then rmtreeIgnore rf fs out else fs)
      = guardedRemove rf fs out := by
  unfold rmtreeIgnore guardedRemove
  by_cases hex : pathExists fs out = true
  · simp [hex]
  · have hex' : pathExists fs out = false := by simpa using hex
    rw [removeEntry_of_not_exists fs _ hex']
    simp [hex']

theorem zipPhase_eq (pf : String → Bool) (fs : List Entry) (z : String) :
    (if pathExists fs z then
      match osRemoveE pf fs z with
      | Except.ok x => x
      | Except.error _ => fs
    else fs) = fileRemoveStep pf fs z := by
  unfold osRemoveE fileRemoveStep
  by_cases hex : pathExists fs z = true
  · by_cases hfi : isFileIn fs z = true
    · by_cases hpf : pf z = true <;> simp [hex, hfi, hpf]
    · have : isFileIn fs z = false := by simpa using hfi
      simp [hex, this]
  · have hex' : pathExists fs z = false := by simpa using hex
    have : isFileIn fs z = false := by
      by_cases hc : isFileIn fs z = true
      · rw [isFileIn_imp_pathExists fs z hc] at hex'
        exact absurd hex' (by simp)
      · simpa using hc
    simp [hex', this]

theorem cleanup_job_files_eq (pf rf : String → Bool) (fs : List Entry) (job_id : String) :
    cleanup_job_files pf rf fs job_id =
      Except.ok
        (fileRemoveStep pf
          (guardedRemove rf
            (guardedRemove (fun n => pf n && rf n) fs ("temp_repo_" ++ job_id))
            ("output_repo_" ++ job_id))
          ("documentation_" ++ job_id ++ ".zip")) := by
  show Except.ok _ = _
  rw [repoPhase_eq pf rf fs ("temp_repo_" ++ job_id)]
  rw [outPhase_eq rf _ ("output_repo_" ++ job_id)]
  rw [zipPhase_eq pf _ ("documentation_" ++ job_id ++ ".zip")]

theorem srdFS_eq (pf rf : String → Bool) (fs : List Entry) (p : String) :
    srdFS pf rf fs p = guardedRemove (srdFail pf rf) fs p := by
  unfold srdFS
  rw [safe_remove_dir_eq]
  rfl

theorem cjfFS_eq (pf rf : String → Bool) (fs : List Entry) (job_id : String) :
    cjfFS pf rf fs job_id =
      fileRemoveStep pf
        (guardedRemove rf
          (guardedRemove (fun n => pf n && rf n) fs ("temp_repo_" ++ job_id))
          ("output_repo_" ++ job_id))
        ("documentation_" ++ job_id ++ ".zip") := by
  unfold cjfFS
  rw [cleanup_job_files_eq]
  rfl

theorem removeWorkspace_as_steps (pf rf : String → Bool) (fs : List Entry) (j : String) :
    removeWorkspace pf rf fs j = applySteps
      [fun s => guardedRemove (srdFail pf rf) s ("temp_repo_" ++ j),
       fun s => guardedRemove (srdFail pf rf) s ("output_repo_" ++ j),
       fun s => guardedRemove (fun n => pf n && rf n) s ("temp_repo_" ++ j),
       fun s => guardedRemove rf s ("output_repo_" ++ j),
       fun s => fileRemoveStep pf s ("documentation_" ++ j ++ ".zip")] fs := by
  unfold removeWorkspace applySteps
  rw [srdFS_eq, srdFS_eq, cjfFS_eq]
  rfl

theorem applySteps_push (f : List Entry → List Entry)
    (steps : List (List Entry → List Entry))
    (hcomm : ∀ g ∈ steps, ∀ s, g (f s) = f (g s)) (fs : List Entry) :
    applySteps steps (f fs) = f (applySteps steps fs) := by
  induction steps generalizing fs with
  | nil => rfl
  | cons g t ih =>
    unfold applySteps at *
    simp only [List.foldl_cons]
    rw [hcomm g (List.mem_cons_self g t) fs]
    exact ih (fun g' hg' s => hcomm g' (List.mem_cons_of_mem g hg') s) (g fs)

theorem applySteps_idem (steps : List (List Entry → List Entry))
    (hidem : ∀ f ∈ steps, ∀ s, f (f s) = f s)
    (hcomm : ∀ f ∈ steps, ∀ g ∈ steps, ∀ s, f (g s) = g (f s)) (fs : List Entry) :
    applySteps steps (applySteps steps fs) = applySteps steps fs := by
  induction steps generalizing fs with
  | nil => rfl
  | cons f t ih =>
    have hpush : ∀ x, applySteps t (f x) = f (applySteps t x) := fun x =>
      applySteps_push f t
        (fun g hg s =>
          (hcomm f (List.mem_cons_self f t) g (List.mem_cons_of_mem f hg) s).symm) x
    have ht_idem : ∀ g ∈ t, ∀ s, g (g s) = g s :=
      fun g hg => hidem g (List.mem_cons_of_mem f hg)
    have ht_comm : ∀ g ∈ t, ∀ g' ∈ t, ∀ s, g (g' s) = g' (g s) :=
      fun g hg g' hg' => hcomm g (List.mem_cons_of_mem f hg) g' (List.mem_cons_of_mem f hg')
    show applySteps t (f (applySteps t (f fs))) = applySteps t (f fs)
    rw [hpush fs]
    rw [hidem f (List.mem_cons_self f t) (applySteps t fs)]
    rw [hpush (applySteps t fs)]
    exact congrArg f (ih ht_idem ht_comm fs)

/-! ### Claim theorems: cleanup idempotence (C8) -/

/-- C8: running the workspace cleanup twice in a row (`safe_remove_dir`
on the source and output trees, then `cleanup_job_files` on the three
workspace entries) is a no-op the second time and never raises — both
routines always return normally (`Except.ok`), the composed cleanup
`removeWorkspace` is idempotent for every failure oracle, and on an
already-clean workspace (none of the three entries exist) it is a
no-op. -/
theorem workspace_cleanup_idempotent :
    ∀ (pf rf : String → Bool) (fs : List Entry) (j p : String),
    (∃ fs', safe_remove_dir pf rf fs p = Except.ok fs') ∧
    (∃ fs', cleanup_job_files pf rf fs j = Except.ok fs') ∧
    removeWorkspace pf rf (removeWorkspace pf rf fs j) j = removeWorkspace pf rf fs j ∧
    ((pathExists fs ("temp_repo_" ++ j) = false ∧
      pathExists fs ("output_repo_" ++ j) = false ∧
      pathExists fs ("documentation_" ++ j ++ ".zip") = false) →
      removeWorkspace pf rf fs j = fs) := by
  intro pf rf fs j p
  refine ⟨⟨_, safe_remove_dir_eq pf rf fs p⟩, ⟨_, cleanup_job_files_eq pf rf fs j⟩, ?_, ?_⟩
  · rw [removeWorkspace_as_steps, removeWorkspace_as_steps]
    apply applySteps_idem
    · intro f hf s
      simp only [List.mem_cons, List.not_mem_nil, or_false] at hf
      rcases hf with h | h | h | h | h <;> subst h
      · exact guardedRemove_idem _ _ _
      · exact guardedRemove_idem _ _ _
      · exact guardedRemove_idem _ _ _
      · exact guardedRemove_idem _ _ _
      · exact fileRemoveStep_idem _ _ _
    · intro f hf g hg s
      simp only [List.mem_cons, List.not_mem_nil, or_false] at hf hg
      rcases hf with h | h | h | h | h <;> subst h <;>
        rcases hg with h' | h' | h' | h' | h' <;> subst h' <;>
        first
          | rfl
          | exact guardedRemove_comm _ _ _ _ s
          | exact fileRemoveStep_guardedRemove_comm _ _ _ _ s
          | exact (fileRemoveStep_guardedRemove_comm _ _ _ _ s).symm
  · rintro ⟨h1, h2, h3⟩
    rw [removeWorkspace_as_steps]
    unfold applySteps
    simp only [List.foldl_cons, List.foldl_nil]
    rw [guardedRemove_noop (srdFail pf rf) fs ("temp_repo_" ++ j) h1]
    rw [guardedRemove_noop (srdFail pf rf) fs ("output_repo_" ++ j) h2]
    rw [guardedRemove_noop (fun n => pf n && rf n) fs ("temp_repo_" ++ j) h1]
    rw [guardedRemove_noop rf fs ("output_repo_" ++ j) h2]
    rw [fileRemoveStep_noop pf fs ("documentation_" ++ j ++ ".zip") h3]

/-- Witness for C8 at a concrete input: a directory holding only an
unrelated file is untouched by a full workspace cleanup for job "1". -/
theorem workspace_cleanup_idempotent_witness :
    (pathExists [Entry.mk "app.py" false] ("temp_repo_" ++ "1") = false ∧
     pathExists [Entry.mk "app.py" false] ("output_repo_" ++ "1") = false ∧
     pathExists [Entry.mk "app.py" false] ("documentation_" ++ "1" ++ ".zip") = false) ∧
    removeWorkspace (fun _ => false) (fun _ => false) [Entry.mk "app.py" false] "1"
      = [Entry.mk "app.py" false] := by
  refine ⟨by decide, ?_⟩
  exact (workspace_cleanup_idempotent (fun _ => false) (fun _ => false)
    [Entry.mk "app.py" false] "1" "x").2.2.2 (by decide)

/-! ### Claim theorems: resilient deletion (C4) -/

/-- C4 counterexample: for a directory whose path does not contain
`'.git'` (here the output tree `output_repo_1`), a permission-denied
plain delete is NOT followed by the chmod-walk-and-retry: the entry
survives `safe_remove_dir` even though the retry would have succeeded
(the spec-modelled resilient strategy `removeDirSpec` removes it). -/
theorem safe_remove_dir_no_retry_counterexample :
    safe_remove_dir (fun _ => true) (fun _ => false)
        [Entry.mk "output_repo_1" true] "output_repo_1"
      = Except.ok [Entry.mk "output_repo_1" true] ∧
    removeDirSpec (fun _ => true) (fun _ => false)
        [Entry.mk "output_repo_1" true] "output_repo_1" = [] := by
  constructor
  · rfl
  · rfl

/-- C4 as amended: `safe_remove_dir` never lets the PermissionError
escape, and behaves as follows — nonexistent path: no-op; plain delete
succeeds: entry removed; plain delete raises and the path contains
`'.git'`: chmod-walk retry, removing the entry when the retry
succeeds and suppressing the failure otherwise; plain delete raises
and the path does NOT contain `'.git'`: no retry at all, the error is
suppressed and the tree is left in place. -/
theorem safe_remove_dir_behavior :
    ∀ (pf rf : String → Bool) (fs : List Entry) (p : String),
    (∃ fs', safe_remove_dir pf rf fs p = Except.ok fs') ∧
    (pathExists fs p = false → safe_remove_dir pf rf fs p = Except.ok fs) ∧
    (pf p = false → safe_remove_dir pf rf fs p = Except.ok (removeEntry fs p)) ∧
    (pf p = true → strContains p ".git" = true → rf p = false →
      safe_remove_dir pf rf fs p = Except.ok (removeEntry fs p)) ∧
    (pf p = true → strContains p ".git" = true → rf p = true →
      safe_remove_dir pf rf fs p = Except.ok fs) ∧
    (pf p = true → strContains p ".git" = false →
      safe_remove_dir pf rf fs p = Except.ok fs) := by
  intro pf rf fs p
  rw [safe_remove_dir_eq]
  unfold guardedRemove srdFail
  refine ⟨⟨_, rfl⟩, ?_, ?_, ?_, ?_, ?_⟩
  · intro h
    rw [removeEntry_of_not_exists fs p h]
    split <;> rfl
  · intro h
    simp [h]
  · intro h1 h2 h3
    simp [h1, h2, h3]
  · intro h1 h2 h3
    simp [h1, h2, h3]
  · intro h1 h2
    simp [h1, h2]

/-- Witness for C4's amended behavior: a locked `.git` directory whose
retry succeeds is removed; a locked non-`.git` directory is left
behind; neither call raises. -/
theorem safe_remove_dir_behavior_witness :
    safe_remove_dir (fun _ => true) (fun _ => false)
        [Entry.mk "temp_repo_1/.git" true] "temp_repo_1/.git" = Except.ok [] ∧
    safe_remove_dir (fun _ => true) (fun _ => true)
        [Entry.mk "temp_repo_1" true] "temp_repo_1"
      = Except.ok [Entry.mk "temp_repo_1" true] := by
  constructor
  · have h := (safe_remove_dir_behavior (fun _ => true) (fun _ => false)
      [Entry.mk "temp_repo_1/.git" true] "temp_repo_1/.git").2.2.2.1
      rfl (by decide) rfl
    rw [h]
    rfl
  · have h := (safe_remove_dir_behavior (fun _ => true) (fun _ => true)
      [Entry.mk "temp_repo_1" true] "temp_repo_1").2.2.2.2.2
      rfl (by decide)
    exact h

/-! ### Claim theorems: the stale sweep (C9) -/

theorem not_mem_removeEntry_self (fs : List Entry) (n : String) (e : Entry)
    (h : e ∈ removeEntry fs n) : e.name ≠ n := by
  unfold removeEntry at h
  have := (List.mem_filter.mp h).2
  intro hn
  simp [hn] at this

theorem isFileIn_of_mem (fs : List Entry) (n : String) (e : Entry)
    (he : e ∈ fs) (hn : e.name = n) (hd : e.isDir = false) : isFileIn fs n = true := by
  unfold isFileIn
  rw [List.any_eq_true]
  exact ⟨e, he, by simp [hn, hd]⟩

theorem isDirIn_of_mem (fs : List Entry) (n : String) (e : Entry)
    (he : e ∈ fs) (hn : e.name = n) (hd : e.isDir = true) : isDirIn fs n = true := by
  unfold isDirIn
  rw [List.any_eq_true]
  exact ⟨e, he, by simp [hn, hd]⟩

theorem zipLoopStep_subset (pf : String → Bool) (acc : List Entry) (e : Entry)
    (x : Entry) (h : x ∈ zipLoopStep pf acc e) : x ∈ acc := by
  unfold zipLoopStep osRemoveE at h
  split at h
  · by_cases hfi : isFileIn acc e.name = true
    · by_cases hpf : pf e.name = true
      · simp only [hfi, hpf] at h
        simp at h
        exact h
      · have hpf' : pf e.name = false := by simpa using hpf
        simp only [hfi, hpf'] at h
        simp at h
        exact mem_removeEntry _ _ _ h
    · have hfi' : isFileIn acc e.name = false := by simpa using hfi
      simp only [hfi'] at h
      simp at h
      exact h
  · exact h

theorem dirLoopStep_subset (pf rf : String → Bool) (acc : List Entry) (e : Entry)
    (x : Entry) (h : x ∈ dirLoopStep pf rf acc e) : x ∈ acc := by
  unfold dirLoopStep at h
  split at h
  · rw [srdFS_eq] at h
    exact guardedRemove_subset _ _ _ _ h
  · exact h

theorem foldl_preserves (step : List Entry → Entry → List Entry)
    (hsub : ∀ acc e x, x ∈ step acc e → x ∈ acc) (P : Entry → Prop) :
    ∀ (l acc : List Entry), (∀ x ∈ acc, P x) → ∀ x ∈ l.foldl step acc, P x := by
  intro l
  induction l with
  | nil => intro acc hacc x hx; exact hacc x hx
  | cons h t ih =>
    intro acc hacc x hx
    simp only [List.foldl_cons] at hx
    exact ih (step acc h) (fun y hy => hacc y (hsub acc h y hy)) x hx

theorem zipLoop_clears (pf : String → Bool) (n : String)
    (hs : strStartsWith n "documentation_" = true)
    (hz : strEndsWith n ".zip" = true)
    (hpf : pf n = false) :
    ∀ (l acc : List Entry),
    (∀ e ∈ acc, e.name = n → e.isDir = false → e ∈ l) →
    ∀ x ∈ l.foldl (zipLoopStep pf) acc, ¬(x.name = n ∧ x.isDir = false) := by
  intro l
  induction l with
  | nil =>
    intro acc hinv x hx hcon
    simp only [List.foldl_nil] at hx
    exact absurd (hinv x hx hcon.1 hcon.2) (List.not_mem_nil x)
  | cons h t ih =>
    intro acc hinv x hx
    simp only [List.foldl_cons] at hx
    refine ih (zipLoopStep pf acc h) ?_ x hx
    intro e he hen hed
    by_cases hn : h.name = n
    · exfalso
      unfold zipLoopStep at he
      rw [hn] at he
      rw [if_pos (by simp [hs, hz])] at he
      by_cases hfi : isFileIn acc n = true
      · unfold osRemoveE at he
        rw [hfi] at he
        simp only [Bool.not_true, hpf] at he
        simp only [Bool.false_eq_true, if_false, Bool.true_eq_false] at he
        exact absurd hen (not_mem_removeEntry_self acc n e he)
      · have hfi' : isFileIn acc n = false := by simpa using hfi
        unfold osRemoveE at he
        rw [hfi'] at he
        simp only [Bool.not_false, if_true] at he
        exact absurd (isFileIn_of_mem acc n e he hen hed) hfi
    · have hacc := zipLoopStep_subset pf acc h e he
      rcases List.mem_cons.mp (hinv e hacc hen hed) with heq | ht
      · exact absurd (heq ▸ hen) hn
      · exact ht

theorem dirLoop_clears (pf rf : String → Bool) (n : String)
    (hs : (strStartsWith n "output_repo_" || strStartsWith n "temp_repo_") = true)
    (hpf : pf n = false) :
    ∀ (l acc : List Entry),
    (∀ e ∈ acc, e.name = n → e.isDir = true → e ∈ l) →
    ∀ x ∈ l.foldl (dirLoopStep pf rf) acc, ¬(x.name = n ∧ x.isDir = true) := by
  intro l
  induction l with
  | nil =>
    intro acc hinv x hx hcon
    simp only [List.foldl_nil] at hx
    exact absurd (hinv x hx hcon.1 hcon.2) (List.not_mem_nil x)
  | cons h t ih =>
    intro acc hinv x hx
    simp only [List.foldl_cons] at hx
    refine ih (dirLoopStep pf rf acc h) ?_ x hx
    intro e he hen hed
    by_cases hn : h.name = n
    · exfalso
      unfold dirLoopStep at he
      rw [hn] at he
      by_cases hdi : isDirIn acc n = true
      · rw [if_pos (by simp [hs, hdi])] at he
        rw [srdFS_eq] at he
        have hfail : srdFail pf rf n = false := by
          unfold srdFail
          simp [hpf]
        unfold guardedRemove at he
        rw [hfail] at he
        simp only [Bool.false_eq_true, if_false] at he
        exact absurd hen (not_mem_removeEntry_self acc n e he)
      · have hdi' : isDirIn acc n = false := by simpa using hdi
        rw [if_neg (by simp [hdi'])] at he
        exact absurd (isDirIn_of_mem acc n e he hen hed) hdi
    · have hacc := dirLoopStep_subset pf rf acc h e he
      rcases List.mem_cons.mp (hinv e hacc hen hed) with heq | ht
      · exact absurd (heq ▸ hen) hn
      · exact ht

theorem run_analysis_job_fsAfterCleanup (explain : String → String → String)
    (overview : String → List (String × String) → String)
    (pf rf : String → Bool) (fs : List Entry) (job_id : String)
    (fetched : Except String (List (String × String))) :
    (run_analysis_job explain overview pf rf fs job_id fetched).fsAfterCleanup
      = cleanup_old_jobs pf rf fs := by
  unfold run_analysis_job
  cases fetched with
  | error m => rfl
  | ok files =>
    by_cases h : files.isEmpty
    · simp [h]
    · simp [h]

/-- C9: `cleanup_old_jobs`, invoked unconditionally at the start of
`run_analysis_job`, removes every directory named `temp_repo_*` or
`output_repo_*` and every regular file named `documentation_*.zip`
from the engine's directory purely by name pattern — it never
receives or compares the invoking job's id, so the workspace of any
other (e.g. still-running) job is deleted too, provided only that its
removal does not hit a permission failure. -/
theorem cleanup_old_jobs_removes_other_jobs :
    ∀ (explain : String → String → String)
      (overview : String → List (String × String) → String)
      (pf rf : String → Bool) (fs : List Entry) (job_id other : String)
      (fetched : Except String (List (String × String))),
    other ≠ job_id →
    pf ("temp_repo_" ++ other) = false →
    pf ("output_repo_" ++ other) = false →
    pf ("documentation_" ++ other ++ ".zip") = false →
    (∀ x ∈ (run_analysis_job explain overview pf rf fs job_id fetched).fsAfterCleanup,
      ¬(x.name = "temp_repo_" ++ other ∧ x.isDir = true)) ∧
    (∀ x ∈ (run_analysis_job explain overview pf rf fs job_id fetched).fsAfterCleanup,
      ¬(x.name = "output_repo_" ++ other ∧ x.isDir = true)) ∧
    (∀ x ∈ (run_analysis_job explain overview pf rf fs job_id fetched).fsAfterCleanup,
      ¬(x.name = "documentation_" ++ other ++ ".zip" ∧ x.isDir = false)) := by
  intro explain overview pf rf fs job_id other fetched _ hpf1 hpf2 hpf3
  rw [run_analysis_job_fsAfterCleanup]
  unfold cleanup_old_jobs
  refine ⟨?_, ?_, ?_⟩
  · exact dirLoop_clears pf rf ("temp_repo_" ++ other)
      (by simp [strStartsWith_append]) hpf1 _ _ (fun e he _ _ => he)
  · exact dirLoop_clears pf rf ("output_repo_" ++ other)
      (by simp [strStartsWith_append]) hpf2 _ _ (fun e he _ _ => he)
  · have hzip := zipLoop_clears pf ("documentation_" ++ other ++ ".zip")
      (strStartsWith_append_append _ _ _) (strEndsWith_append _ _) hpf3
      fs fs (fun e he _ _ => he)
    exact foldl_preserves (dirLoopStep pf rf) (dirLoopStep_subset pf rf)
      (fun x => ¬(x.name = "documentation_" ++ other ++ ".zip" ∧ x.isDir = false))
      _ _ hzip

/-- Witness for C9: starting job "b" deletes the entire workspace of
the unrelated job "a". -/
theorem cleanup_old_jobs_removes_other_jobs_witness :
    ("a" : String) ≠ "b" ∧
    (∀ x ∈ (run_analysis_job (fun _ _ => "E") (fun _ _ => "OV") (fun _ => false)
        (fun _ => false)
        [Entry.mk "temp_repo_a" true, Entry.mk "output_repo_a" true,
         Entry.mk "documentation_a.zip" false]
        "b" (Except.ok [])).fsAfterCleanup,
      ¬(x.name = "temp_repo_" ++ "a" ∧ x.isDir = true)) := by
  refine ⟨by decide, ?_⟩
  exact (cleanup_old_jobs_removes_other_jobs (fun _ _ => "E") (fun _ _ => "OV")
    (fun _ => false) (fun _ => false)
    [Entry.mk "temp_repo_a" true, Entry.mk "output_repo_a" true,
     Entry.mk "documentation_a.zip" false]
    "b" "a" (Except.ok []) (by decide) rfl rfl rfl).1

/-! ### Claim theorems: the file classifier (C3, C5, C6) -/

/-- C3 counterexample: `test_app.py` matches the test-file naming
convention, yet the selection predicate of `get_code_files` includes
it — no test-name check exists in the code. -/
theorem test_named_file_included_counterexample :
    matchesTestNaming "test_app.py" = true ∧
    shouldAnalyze
      (FileInfo.mk "test_app.py" 10 false [112, 114, 105, 110, 116, 40, 49, 41]) = true := by
  constructor
  · decide
  · decide

/-- C3 as amended: `get_code_files` applies no test-file naming
heuristic; a file matching the test naming convention is included
whenever it passes the filters that do exist (hidden-name, extension
denylist, symlink, size cap, binary sniff). -/
theorem no_test_name_filter :
    ∀ f : FileInfo,
    matchesTestNaming f.name = true →
    (strStartsWith f.name "." && !(hiddenAllowlist.any (fun a => a == f.name))) = false →
    (ignored_exts.any (fun e => strEndsWith f.name e)) = false →
    f.isSymlink = false →
    f.size ≤ max_file_size_kb * 1024 →
    is_text_file f.content = true →
    shouldAnalyze f = true := by
  intro f _ hhid hext hsym hsize htxt
  unfold shouldAnalyze
  simp [hhid, hext, hsym, htxt, Nat.not_lt.mpr hsize]

/-- Witness for C3's amended claim at `test_app.py`. -/
theorem no_test_name_filter_witness :
    matchesTestNaming "test_app.py" = true ∧
    shouldAnalyze
      (FileInfo.mk "test_app.py" 8 false [112, 114, 105, 110, 116, 40, 49, 41]) = true := by
  refine ⟨by decide, ?_⟩
  exact no_test_name_filter
    (FileInfo.mk "test_app.py" 8 false [112, 114, 105, 110, 116, 40, 49, 41])
    (by decide) (by decide) (by decide) rfl (by decide) (by decide)

/-- C5: the binary sniff inspects exactly the first 1024 bytes — a
null byte there excludes the file unconditionally; absent a null byte
and given that the window decodes as UTF-8, the file is included
whenever the remaining filters pass; and the predicate's verdict
depends on the content only through that 1024-byte window, so bytes
beyond it (valid or not) are irrelevant. -/
theorem binary_sniff_window :
    ∀ f g : FileInfo,
    ((f.content.take 1024).contains 0 = true → shouldAnalyze f = false) ∧
    ((f.content.take 1024).contains 0 = false →
      utf8Valid (f.content.take 1024) = true →
      (strStartsWith f.name "." && !(hiddenAllowlist.any (fun a => a == f.name))) = false →
      (ignored_exts.any (fun e => strEndsWith f.name e)) = false →
      f.isSymlink = false →
      f.size ≤ max_file_size_kb * 1024 →
      shouldAnalyze f = true) ∧
    (f.name = g.name → f.size = g.size → f.isSymlink = g.isSymlink →
      f.content.take 1024 = g.content.take 1024 →
      shouldAnalyze f = shouldAnalyze g) := by
  intro f g
  refine ⟨?_, ?_, ?_⟩
  · intro h
    have htf : is_text_file f.content = false := by
      unfold is_text_file
      simp only [h]
      rfl
    unfold shouldAnalyze
    simp [htf]
  · intro h1 h2 hhid hext hsym hsize
    have htf : is_text_file f.content = true := by
      unfold is_text_file
      simp only [h1, h2]
      rfl
    unfold shouldAnalyze
    simp [hhid, hext, hsym, htf, Nat.not_lt.mpr hsize]
  · obtain ⟨n1, s1, y1, c1⟩ := f
    obtain ⟨n2, s2, y2, c2⟩ := g
    intro h1 h2 h3 h4
    simp only at h1 h2 h3 h4
    subst h1; subst h2; subst h3
    unfold shouldAnalyze is_text_file
    rw [h4]

/-- Witness for C5: a file of 1024 ASCII bytes followed by an invalid
byte `0xFF` — the window is clean UTF-8, the full content is not, and
the file is still included. -/
theorem binary_sniff_window_witness :
    (((List.replicate 1024 97 ++ [255]).take 1024).contains 0 = false ∧
     utf8Valid ((List.replicate 1024 97 ++ [255]).take 1024) = true ∧
     utf8Valid (List.replicate 1024 97 ++ [255]) = false) ∧
    shouldAnalyze (FileInfo.mk "a.py" 1025 false (List.replicate 1024 97 ++ [255])) = true := by
  refine ⟨⟨by decide, by decide, by decide⟩, ?_⟩
  exact (binary_sniff_window
      (FileInfo.mk "a.py" 1025 false (List.replicate 1024 97 ++ [255]))
      (FileInfo.mk "a.py" 1025 false (List.replicate 1024 97 ++ [255]))).2.1
    (by decide) (by decide) (by decide) (by decide) rfl (by decide)

/-- C6: the size filter of `get_code_files` uses a strict comparison
against `max_file_size_kb * 1024` bytes — a file exactly at the cap is
included (when the other filters pass), one byte over is excluded
regardless of anything else. -/
theorem size_cap_boundary :
    ∀ f : FileInfo,
    (f.size = max_file_size_kb * 1024 →
      (strStartsWith f.name "." && !(hiddenAllowlist.any (fun a => a == f.name))) = false →
      (ignored_exts.any (fun e => strEndsWith f.name e)) = false →
      f.isSymlink = false →
      is_text_file f.content = true →
      shouldAnalyze f = true) ∧
    (f.size = max_file_size_kb * 1024 + 1 → shouldAnalyze f = false) := by
  intro f
  constructor
  · intro hsize hhid hext hsym htxt
    unfold shouldAnalyze
    have : ¬(f.size > max_file_size_kb * 1024) := by
      rw [hsize]
      exact lt_irrefl _
    simp [hhid, hext, hsym, htxt, this]
  · intro hsize
    have : f.size > max_file_size_kb * 1024 := by
      rw [hsize]
      exact Nat.lt_succ_self _
    unfold shouldAnalyze
    simp [this]

/-- Witness for C6 at the boundary sizes 1024000 and 1024001. -/
theorem size_cap_boundary_witness :
    shouldAnalyze (FileInfo.mk "a.py" 1024000 false [104]) = true ∧
    shouldAnalyze (FileInfo.mk "a.py" 1024001 false [104]) = false := by
  constructor
  · exact (size_cap_boundary (FileInfo.mk "a.py" 1024000 false [104])).1
      rfl (by decide) (by decide) rfl (by decide)
  · exact (size_cap_boundary (FileInfo.mk "a.py" 1024001 false [104])).2 rfl

/-! ### Claim theorems: orchestrator outcomes (C7, C2) -/

/-- C7: an empty enumeration makes `run_analysis_job` return `None`
(not raise), which the wrapper turns into a FAILED job with the fixed
"no files" message; a fetch failure instead propagates as a raised
exception whose message the wrapper stores verbatim as the job's
error message. -/
theorem empty_enumeration_vs_fetch_failure :
    ∀ (explain : String → String → String)
      (overview : String → List (String × String) → String)
      (pf rf : String → Bool) (fs : List Entry) (job_id m : String),
    (run_analysis_job explain overview pf rf fs job_id (Except.ok [])).result
      = Except.ok none ∧
    run_analysis_job_wrapper (Except.ok none)
      = JobEntity.mk "FAILED" none (some NO_FILES_MSG) ∧
    (run_analysis_job explain overview pf rf fs job_id (Except.error m)).result
      = Except.error m ∧
    run_analysis_job_wrapper (Except.error m) = JobEntity.mk "FAILED" none (some m) := by
  intro explain overview pf rf fs job_id m
  exact ⟨rfl, rfl, rfl, rfl⟩

/-- C2: for every job whose candidate list is nonempty (so the
overview phase runs), the `file_tree_str` argument handed to
`generate_project_overview` is the fixed placeholder string
`"DUMMY_TREE"` — not a rendering of any directory tree. -/
theorem overview_tree_arg_is_dummy :
    ∀ (explain : String → String → String)
      (overview : String → List (String × String) → String)
      (pf rf : String → Bool) (fs : List Entry) (job_id p c : String)
      (rest : List (String × String)),
    (run_analysis_job explain overview pf rf fs job_id
      (Except.ok ((p, c) :: rest))).overviewTreeArg = some "DUMMY_TREE" := by
  intro explain overview pf rf fs job_id p c rest
  rfl

/-! ### Claim theorems: the processing loop (C1, C10) -/

theorem foldl_processOne_summaries (explain : String → String → String)
    (rp op : String) :
    ∀ (files : List (String × String)) (st : List (String × String) × List (String × String)),
    (files.foldl (processOne explain rp op) st).2
      = files.foldl
          (fun m f => assocSet m (relpath f.1 rp) (firstLine (explain f.2 f.1))) st.2 := by
  intro files
  induction files with
  | nil => intro st; rfl
  | cons f t ih =>
    intro st
    simp only [List.foldl_cons]
    rw [ih (processOne explain rp op st f)]
    rfl

theorem assocSet_keys_fresh (m : List (String × String)) (k v : String)
    (h : k ∉ m.map Prod.fst) :
    (assocSet m k v).map Prod.fst = m.map Prod.fst ++ [k] := by
  unfold assocSet
  have hany : (m.any (fun kv => kv.1 == k)) = false := by
    rw [List.any_eq_false]
    intro kv hkv hb
    exact h (List.mem_map.mpr ⟨kv, hkv, beq_iff_eq.mp hb⟩)
  simp [hany]

theorem foldl_assocSet_keys (key val : (String × String) → String) :
    ∀ (files : List (String × String)) (m : List (String × String)),
    (files.map key).Nodup →
    (∀ x ∈ files.map key, x ∉ m.map Prod.fst) →
    (files.foldl (fun m f => assocSet m (key f) (val f)) m).map Prod.fst
      = m.map Prod.fst ++ files.map key := by
  intro files
  induction files with
  | nil => intro m _ _; simp
  | cons f t ih =>
    intro m hnd hdisj
    simp only [List.foldl_cons, List.map_cons]
    have hfresh : key f ∉ m.map Prod.fst := hdisj (key f) (by simp)
    have hnd' : (t.map key).Nodup := (List.nodup_cons.mp hnd).2
    have hhead : key f ∉ t.map key := (List.nodup_cons.mp hnd).1
    rw [ih (assocSet m (key f) (val f)) hnd' ?_]
    · rw [assocSet_keys_fresh m (key f) (val f) hfresh]
      simp
    · intro x hx
      rw [assocSet_keys_fresh m (key f) (val f) hfresh]
      intro hmem
      rcases List.mem_append.mp hmem with hm | hs
      · exact hdisj x (List.mem_cons_of_mem _ hx) hm
      · rw [List.mem_singleton.mp hs] at hx
        exact hhead hx

theorem run_analysis_job_summaries (explain : String → String → String)
    (overview : String → List (String × String) → String)
    (pf rf : String → Bool) (fs : List Entry) (job_id : String)
    (p : String) (c : String) (rest : List (String × String)) :
    (run_analysis_job explain overview pf rf fs job_id
        (Except.ok ((p, c) :: rest))).summaries
      = (((p, c) :: rest).foldl
          (processOne explain ("./temp_repo_" ++ job_id) ("./output_repo_" ++ job_id))
          ([], [])).2 := by
  rfl

/-- C1 counterexample: for the single candidate `helpers.py`, the
summary mapping's key is `helpers.py` — the relative path with its
ORIGINAL extension — while the claim predicts the `.md`-swapped key
`helpers.md`. -/
theorem summary_key_keeps_extension_counterexample :
    (run_analysis_job (fun _ _ => "# E\nbody") (fun _ _ => "OV")
        (fun _ => false) (fun _ => false) [] "1"
        (Except.ok [("./temp_repo_1/helpers.py", "x")])).summaries
      = [("helpers.py", "# E")] ∧
    replaceExtWithMd "helpers.py" = "helpers.md" ∧
    ("helpers.py" : String) ≠ "helpers.md" := by
  refine ⟨by decide, by decide, by decide⟩

/-- C1 as amended: every candidate file (in a run where all reads
succeed, as modelled) produces exactly one Explanation Record, and its
summary-mapping key is the file's path relative to the source-tree
root with its ORIGINAL extension kept; the `.md` swap applies only to
the output file's path. -/
theorem summary_keys_are_original_relpaths :
    ∀ (explain : String → String → String)
      (overview : String → List (String × String) → String)
      (pf rf : String → Bool) (fs : List Entry) (job_id : String)
      (files : List (String × String)),
    (files.map (fun f => relpath f.1 ("./temp_repo_" ++ job_id))).Nodup →
    (run_analysis_job explain overview pf rf fs job_id
        (Except.ok files)).summaries.map Prod.fst
      = files.map (fun f => relpath f.1 ("./temp_repo_" ++ job_id)) := by
  intro explain overview pf rf fs job_id files hnd
  cases files with
  | nil => rfl
  | cons f t =>
    rw [run_analysis_job_summaries]
    rw [foldl_processOne_summaries]
    have h := foldl_assocSet_keys
      (fun f => relpath f.1 ("./temp_repo_" ++ job_id))
      (fun f => firstLine (explain f.2 f.1)) (f :: t) [] hnd (by simp)
    simpa using h

/-- Witness for C1's amended claim with two candidates. -/
theorem summary_keys_are_original_relpaths_witness :
    (([("./temp_repo_1/a.py", "x"), ("./temp_repo_1/b.py", "y")].map
        (fun f : String × String => relpath f.1 ("./temp_repo_" ++ "1"))).Nodup) ∧
    (run_analysis_job (fun _ _ => "E") (fun _ _ => "OV") (fun _ => false) (fun _ => false)
        [] "1"
        (Except.ok [("./temp_repo_1/a.py", "x"), ("./temp_repo_1/b.py", "y")])).summaries.map
        Prod.fst
      = ["a.py", "b.py"] := by
  refine ⟨by decide, ?_⟩
  have h := summary_keys_are_original_relpaths (fun _ _ => "E") (fun _ _ => "OV")
    (fun _ => false) (fun _ => false) [] "1"
    [("./temp_repo_1/a.py", "x"), ("./temp_repo_1/b.py", "y")] (by decide)
  exact h.trans (by decide)

theorem assocSet_nil (k v : String) : assocSet [] k v = [(k, v)] := rfl

theorem assocSet_single_hit (k v k' v' : String) (h : k = k') :
    assocSet [(k, v)] k' v' = [(k', v')] := by
  unfold assocSet
  simp [h]

theorem assocSet_single_miss (k v k' v' : String) (h : k ≠ k') :
    assocSet [(k, v)] k' v' = [(k, v), (k', v')] := by
  unfold assocSet
  simp [h]

/-- C10: when two candidate files map to the same `.md` output path
(same directory, same stem, different original extension), the
later-enumerated file's explanation overwrites the earlier one's in
the output tree, while the summary mapping keeps one entry per file
under its original-extension relative path. -/
theorem extension_collision_overwrites :
    ∀ (explain : String → String → String)
      (overview : String → List (String × String) → String)
      (pf rf : String → Bool) (fs : List Entry) (j p1 c1 p2 c2 : String),
    relpath p1 ("./temp_repo_" ++ j) ≠ relpath p2 ("./temp_repo_" ++ j) →
    (splitext (joinPath ("./output_repo_" ++ j) (relpath p1 ("./temp_repo_" ++ j)))).1
      = (splitext (joinPath ("./output_repo_" ++ j) (relpath p2 ("./temp_repo_" ++ j)))).1 →
    (splitext (joinPath ("./output_repo_" ++ j) (relpath p2 ("./temp_repo_" ++ j)))).1 ++ ".md"
      ≠ joinPath ("./output_repo_" ++ j) "_PROJECT_OVERVIEW.md" →
    (run_analysis_job explain overview pf rf fs j
        (Except.ok [(p1, c1), (p2, c2)])).outputs
      = [((splitext (joinPath ("./output_repo_" ++ j)
              (relpath p2 ("./temp_repo_" ++ j)))).1 ++ ".md", explain c2 p2),
         (joinPath ("./output_repo_" ++ j) "_PROJECT_OVERVIEW.md",
          overview "DUMMY_TREE"
            [(relpath p1 ("./temp_repo_" ++ j), firstLine (explain c1 p1)),
             (relpath p2 ("./temp_repo_" ++ j), firstLine (explain c2 p2))])] ∧
    (run_analysis_job explain overview pf rf fs j
        (Except.ok [(p1, c1), (p2, c2)])).summaries
      = [(relpath p1 ("./temp_repo_" ++ j), firstLine (explain c1 p1)),
         (relpath p2 ("./temp_repo_" ++ j), firstLine (explain c2 p2))] := by
  intro explain overview pf rf fs j p1 c1 p2 c2 hne hbase hov
  have hst : ([(p1, c1), (p2, c2)].foldl
      (processOne explain ("./temp_repo_" ++ j) ("./output_repo_" ++ j)) ([], []))
      = processOne explain ("./temp_repo_" ++ j) ("./output_repo_" ++ j)
          (processOne explain ("./temp_repo_" ++ j) ("./output_repo_" ++ j)
            ([], []) (p1, c1)) (p2, c2) := rfl
  have hstep1 : processOne explain ("./temp_repo_" ++ j) ("./output_repo_" ++ j)
      ([], []) (p1, c1)
      = ([((splitext (joinPath ("./output_repo_" ++ j)
            (relpath p1 ("./temp_repo_" ++ j)))).1 ++ ".md", explain c1 p1)],
         [(relpath p1 ("./temp_repo_" ++ j), firstLine (explain c1 p1))]) := rfl
  have hstep2 : processOne explain ("./temp_repo_" ++ j) ("./output_repo_" ++ j)
      ([((splitext (joinPath ("./output_repo_" ++ j)
            (relpath p1 ("./temp_repo_" ++ j)))).1 ++ ".md", explain c1 p1)],
         [(relpath p1 ("./temp_repo_" ++ j), firstLine (explain c1 p1))]) (p2, c2)
      = ([((splitext (joinPath ("./output_repo_" ++ j)
            (relpath p2 ("./temp_repo_" ++ j)))).1 ++ ".md", explain c2 p2)],
         [(relpath p1 ("./temp_repo_" ++ j), firstLine (explain c1 p1)),
          (relpath p2 ("./temp_repo_" ++ j), firstLine (explain c2 p2))]) := by
    simp only [processOne]
    rw [assocSet_single_hit _ _ _ _ (by rw [hbase])]
    rw [assocSet_single_miss _ _ _ _ hne]
  show (run_analysis_job explain overview pf rf fs j
        (Except.ok [(p1, c1), (p2, c2)])).outputs = _ ∧
      (run_analysis_job explain overview pf rf fs j
        (Except.ok [(p1, c1), (p2, c2)])).summaries = _
  unfold run_analysis_job
  simp only [List.isEmpty_cons, Bool.false_eq_true, if_false]
  rw [hst, hstep1, hstep2]
  constructor
  · show assocSet _ _ _ = _
    rw [assocSet_single_miss _ _ _ _ hov]
  · rfl

/-- Witness for C10: `app.py` and `app.js` collide on `app.md`; the
explanation of `app.js` (enumerated second) is what survives. -/
theorem extension_collision_overwrites_witness :
    (run_analysis_job (fun _ p => "explained " ++ p) (fun t _ => t)
        (fun _ => false) (fun _ => false) [] "1"
        (Except.ok [("./temp_repo_1/app.py", "A"), ("./temp_repo_1/app.js", "B")])).outputs
      = [("./output_repo_1/app.md", "explained ./temp_repo_1/app.js"),
         ("./output_repo_1/_PROJECT_OVERVIEW.md", "DUMMY_TREE")] := by
  have h := (extension_collision_overwrites (fun _ p => "explained " ++ p) (fun t _ => t)
    (fun _ => false) (fun _ => false) [] "1"
    "./temp_repo_1/app.py" "A" "./temp_repo_1/app.js" "B"
    (by decide) (by decide) (by decide)).1
  exact h.trans (by decide)
